import Mathlib

/-!
# GigFlow backend — formal model of the gig/bid controllers

A shallow embedding of the GigFlow REST backend (Express + Mongoose).
The persistent store is modelled as two lists of documents (gigs and
bids); every controller from `src/controllers` that mutates the store is
translated into a pure function `Store → args → Result × Store`.
MongoDB's `_id` values are modelled as `Nat`; the store's guarantee that
generated ids are unique appears as freshness hypotheses on the creation
steps of the transition system.  The hire endpoint runs inside a MongoDB
session transaction under snapshot isolation with no retry logic:
`hireBid` models one transaction in isolation, and `hireBidTxn`
additionally models the commit of a transaction whose snapshot may be
stale, including the transient write-conflict abort that the
controller's `catch` forwards to `next(error)`.
-/

namespace GigFlow

/-- Gig status enum of the Gig schema: `open` or `assigned`. -/
inductive GigStatus
  | «open»
  | assigned
deriving DecidableEq, Repr

/-- Bid status enum of `Bid.model.js`: `pending`, `hired` or `rejected`. -/
inductive BidStatus
  | pending
  | hired
  | rejected
deriving DecidableEq, Repr

/-- A Gig document.  Modelled from the spec: the Gig schema file is not
under `src/`; per the spec a Gig has title, description, budget, an owner
reference, status ∈ {open, assigned} and an optional hired-bid
reference. -/
structure GigDoc where
  id : Nat
  ownerId : Nat
  title : String
  description : String
  budget : Nat
  status : GigStatus
  hiredBidId : Option Nat
deriving DecidableEq, Repr

/-- A Bid document (`Bid.model.js`): gig reference, freelancer reference,
message, price, status defaulting to `pending`. -/
structure BidDoc where
  id : Nat
  gigId : Nat
  freelancerId : Nat
  message : String
  price : Nat
  status : BidStatus
deriving DecidableEq, Repr

/-- The persistent store: the `gigs` and `bids` collections. -/
structure Store where
  gigs : List GigDoc
  bids : List BidDoc
deriving DecidableEq, Repr

/-- `Gig.findById` -/
def findGig (s : Store) (i : Nat) : Option GigDoc :=
  s.gigs.find? (fun g => g.id == i)

/-- `Bid.findById` -/
def findBid (s : Store) (i : Nat) : Option BidDoc :=
  s.bids.find? (fun b => b.id == i)

/-- `Bid.findOne({ gigId, freelancerId })` -/
def findBidByGigAndFreelancer (s : Store) (gid fid : Nat) : Option BidDoc :=
  s.bids.find? (fun b => b.gigId == gid && b.freelancerId == fid)

/-- JavaScript `x || old` for string fields (`undefined` and `""` are
falsy), as in `bid.message = message || bid.message`. -/
def orKeepStr (newVal : Option String) (old : String) : String :=
  match newVal with
  | none => old
  | some v => if v = "" then old else v

/-- JavaScript `x || old` for numeric fields (`undefined` and `0` are
falsy), as in `bid.price = price || bid.price`. -/
def orKeepNum (newVal : Option Nat) (old : Nat) : Nat :=
  match newVal with
  | none => old
  | some v => if v = 0 then old else v

/-! ## Regular-expression search

`getGigs` hands the raw `search` string to MongoDB as
`{ $regex: search, $options: "i" }`: the term is interpreted as an
unanchored case-insensitive regular expression, not as a literal
substring.  We model the PCRE fragment relevant to plain search terms:
literal characters, `.` (any character) and postfix `*`; the `i` option
is modelled by lower-casing both pattern literals and subject. -/

/-- Anchored regex match of a pattern (literals, `.`, postfix `*`)
against the front of the subject.  The `fuel` argument only forces
structural recursion; every recursive call strictly shrinks
`pattern.length + subject.length`, so `matchHere` supplies enough fuel
for fuel never to run out.  This embeds only the PCRE fragment that the
theorems below exercise: metacharacter-free search terms (where PCRE
matching is literal matching, proved in `regexMatchCI_literal`) plus the
single-`.` pattern of the C7 counterexample (where a PCRE dot matches
any character, as here). -/
def matchFuel : Nat → List Char → List Char → Bool
  | _, [], _ => true
  | 0, _ :: _, _ => false
  | fuel + 1, c :: ps, s =>
    if ps.head? = some '*' then
      matchFuel fuel ps.tail s ||
        (match s with
         | [] => false
         | d :: ds => (c == '.' || c == d) && matchFuel fuel (c :: ps) ds)
    else
      match s with
      | [] => false
      | d :: ds => (c == '.' || c == d) && matchFuel fuel ps ds

/-- Anchored regex match with adequate fuel. -/
def matchHere (p s : List Char) : Bool :=
  matchFuel (p.length + s.length) p s

/-- Unanchored regex search: try `matchHere` at every start position. -/
def searchFrom (pat : List Char) : List Char → Bool
  | [] => matchHere pat []
  | d :: ds => matchHere pat (d :: ds) || searchFrom pat ds

/-- Case-insensitive unanchored regex match, modelling
`{ $regex: pat, $options: "i" }`. -/
def regexMatchCI (pat s : String) : Bool :=
  searchFrom (pat.data.map Char.toLower) (s.data.map Char.toLower)

/-- `needle` starts the list `hay` (character-wise). -/
def startsWithSeg : List Char → List Char → Bool
  | [], _ => true
  | _ :: _, [] => false
  | a :: as, b :: bs => a == b && startsWithSeg as bs

/-- `needle` occurs as a contiguous segment of `hay`. -/
def containsSeg (needle : List Char) : List Char → Bool
  | [] => startsWithSeg needle []
  | d :: ds => startsWithSeg needle (d :: ds) || containsSeg needle ds

/-- Case-insensitive literal substring containment: the reading of
"case-insensitively contains the search term as a substring" used by the
spec. -/
def containsCI (term s : String) : Bool :=
  containsSeg (term.data.map Char.toLower) (s.data.map Char.toLower)

/-- The characters PCRE treats specially.  A search term avoiding all of
them is matched by `$regex` exactly as a literal string. -/
def regexSpecialChars : List Char :=
  ['.', '*', '+', '?', '|', '(', ')', '[', ']', '\x7b', '\x7d', '^', '$', '\\']

/-- A search term free of regex metacharacters: on such terms the
`$regex` query degenerates to (case-insensitive) literal substring
search, and the embedded matcher is a faithful model of PCRE. -/
def isLiteralPattern (pat : String) : Bool :=
  pat.data.all (fun c => !(regexSpecialChars.contains c))

/-! ## Gig controller -/

/-- `createGig` (`POST /api/gigs`): unconditionally inserts a new gig
owned by the caller.  Modelled from the spec: the Gig schema (absent from
`src/`) defaults status to `open` with no hired-bid reference. -/
def createGig (s : Store) (callerId newId : Nat) (title description : String)
    (budget : Nat) : GigDoc × Store :=
  let g : GigDoc :=
    { id := newId, ownerId := callerId, title := title,
      description := description, budget := budget,
      status := GigStatus.«open», hiredBidId := none }
  (g, { s with gigs := s.gigs ++ [g] })

/-- Outcome of `getGigs`' status filter: `if (status) query.status =
status; else query.status = "open"` (an empty string is falsy in JS). -/
def effectiveStatusFilter (statusQ : Option String) : String :=
  match statusQ with
  | none => "open"
  | some st => if st = "" then "open" else st

/-- The stored status rendered as the string MongoDB compares against. -/
def statusStr : GigStatus → String
  | GigStatus.«open» => "open"
  | GigStatus.assigned => "assigned"

/-- Does a gig match the query `getGigs` builds?  Status must equal the
effective filter; when a (truthy) search term is present, title or
description must match it as a case-insensitive regex (`$or` of two
`$regex` clauses). -/
def gigMatchesQuery (search statusQ : Option String) (g : GigDoc) : Bool :=
  statusStr g.status == effectiveStatusFilter statusQ &&
    (match search with
     | none => true
     | some pat =>
       if pat = "" then true
       else regexMatchCI pat g.title || regexMatchCI pat g.description)

/-- `getGigs` (`GET /api/gigs?search=&status=`): filter the gigs
collection by the built query. -/
def getGigs (s : Store) (search statusQ : Option String) : List GigDoc :=
  s.gigs.filter (gigMatchesQuery search statusQ)

/-- Outcome of `updateGig`. -/
inductive UpdateGigResult
  | notFound
  | notOwner
  | alreadyAssigned
  | updated (g : GigDoc)
deriving DecidableEq, Repr

/-- HTTP status `updateGig` responds with. -/
def UpdateGigResult.statusCode : UpdateGigResult → Nat
  | notFound => 404
  | notOwner => 403
  | alreadyAssigned => 400
  | updated _ => 200

/-- `updateGig` (`PUT /api/gigs/:id`): 404 if missing, 403 if the caller
is not the owner, 400 if already assigned; otherwise overwrite each of
title/description/budget with `field || gig.field` and save. -/
def updateGig (s : Store) (callerId gigIdReq : Nat) (title description : Option String)
    (budget : Option Nat) : UpdateGigResult × Store :=
  match findGig s gigIdReq with
  | none => (UpdateGigResult.notFound, s)
  | some gig =>
    if gig.ownerId ≠ callerId then (UpdateGigResult.notOwner, s)
    else if gig.status = GigStatus.assigned then (UpdateGigResult.alreadyAssigned, s)
    else
      let gig' : GigDoc :=
        { gig with title := orKeepStr title gig.title,
                   description := orKeepStr description gig.description,
                   budget := orKeepNum budget gig.budget }
      (UpdateGigResult.updated gig',
        { s with gigs := s.gigs.map (fun g => if g.id == gigIdReq then gig' else g) })

/-- Outcome of `deleteGig`. -/
inductive DeleteGigResult
  | notFound
  | notOwner
  | deleted
deriving DecidableEq, Repr

/-- HTTP status `deleteGig` responds with. -/
def DeleteGigResult.statusCode : DeleteGigResult → Nat
  | notFound => 404
  | notOwner => 403
  | deleted => 200

/-- `deleteGig` (`DELETE /api/gigs/:id`): 404 if missing, 403 if the
caller is not the owner; otherwise `Bid.deleteMany({ gigId: gig._id })`
then `gig.deleteOne()`. -/
def deleteGig (s : Store) (callerId gigIdReq : Nat) : DeleteGigResult × Store :=
  match findGig s gigIdReq with
  | none => (DeleteGigResult.notFound, s)
  | some gig =>
    if gig.ownerId ≠ callerId then (DeleteGigResult.notOwner, s)
    else
      (DeleteGigResult.deleted,
        { gigs := s.gigs.filter (fun g => g.id != gigIdReq),
          bids := s.bids.filter (fun b => b.gigId != gig.id) })

/-! ## Bid controller -/

/-- Outcome of `createBid`. -/
inductive CreateBidResult
  | gigNotFound
  | gigNotOpen
  | ownGig
  | duplicateBid
  | created (b : BidDoc)
deriving DecidableEq, Repr

/-- HTTP status `createBid` responds with.  Note the own-gig rejection is
a 400, not a 403: the controller answers `"You cannot bid on your own
gig"` with `res.status(400)`. -/
def CreateBidResult.statusCode : CreateBidResult → Nat
  | gigNotFound => 404
  | gigNotOpen => 400
  | ownGig => 400
  | duplicateBid => 400
  | created _ => 201

/-- `createBid` (`POST /api/bids`): gig must exist (404), be open (400),
not belong to the caller (400), and the caller must not already have a
bid on it (400); then a pending bid is inserted (201). -/
def createBid (s : Store) (callerId newId gigIdReq : Nat) (message : String)
    (price : Nat) : CreateBidResult × Store :=
  match findGig s gigIdReq with
  | none => (CreateBidResult.gigNotFound, s)
  | some gig =>
    if gig.status ≠ GigStatus.«open» then (CreateBidResult.gigNotOpen, s)
    else if gig.ownerId = callerId then (CreateBidResult.ownGig, s)
    else
      match findBidByGigAndFreelancer s gigIdReq callerId with
      | some _ => (CreateBidResult.duplicateBid, s)
      | none =>
        let b : BidDoc :=
          { id := newId, gigId := gigIdReq, freelancerId := callerId,
            message := message, price := price, status := BidStatus.pending }
        (CreateBidResult.created b, { s with bids := s.bids ++ [b] })

/-- Outcome of `hireBid`. -/
inductive HireResult
  | bidNotFound
  | gigNotFound
  | notOwner
  | alreadyAssigned
  | hired (b : BidDoc)
deriving DecidableEq, Repr

/-- HTTP status `hireBid` responds with. -/
def HireResult.statusCode : HireResult → Nat
  | bidNotFound => 404
  | gigNotFound => 404
  | notOwner => 403
  | alreadyAssigned => 400
  | hired _ => 200

/-- `hireBid` (`PATCH /api/bids/:bidId/hire`), the transactional hiring
transition: find the bid (404), its gig (404), require caller == owner
(403) and gig not yet assigned (400); then, atomically, set the gig to
`assigned` with `hiredBidId = bid._id`, set the bid to `hired`, and
reject every other pending bid of the same gig
(`updateMany({gigId, _id ≠ bid._id, status: "pending"},
{$set: {status: "rejected"}})`). -/
def hireBid (s : Store) (callerId bidIdReq : Nat) : HireResult × Store :=
  match findBid s bidIdReq with
  | none => (HireResult.bidNotFound, s)
  | some bid =>
    match findGig s bid.gigId with
    | none => (HireResult.gigNotFound, s)
    | some gig =>
      if gig.ownerId ≠ callerId then (HireResult.notOwner, s)
      else if gig.status = GigStatus.assigned then (HireResult.alreadyAssigned, s)
      else
        let gig' : GigDoc := { gig with status := GigStatus.assigned, hiredBidId := some bid.id }
        let bid' : BidDoc := { bid with status := BidStatus.hired }
        (HireResult.hired bid',
          { gigs := s.gigs.map (fun g => if g.id == gig.id then gig' else g),
            bids := s.bids.map (fun b =>
              if b.id == bid.id then bid'
              else if b.gigId == gig.id && decide (b.status = BidStatus.pending) then
                { b with status := BidStatus.rejected }
              else b) })

/-- Outcome of `updateBid`. -/
inductive UpdateBidResult
  | notFound
  | notOwner
  | notPending
  | updated (b : BidDoc)
deriving DecidableEq, Repr

/-- HTTP status `updateBid` responds with. -/
def UpdateBidResult.statusCode : UpdateBidResult → Nat
  | notFound => 404
  | notOwner => 403
  | notPending => 400
  | updated _ => 200

/-- `updateBid` (`PUT /api/bids/:bidId`): 404 if missing, 403 if the
caller is not the bid's freelancer, 400 unless the bid is pending; then
`message || bid.message`, `price || bid.price` are saved. -/
def updateBid (s : Store) (callerId bidIdReq : Nat) (message : Option String)
    (price : Option Nat) : UpdateBidResult × Store :=
  match findBid s bidIdReq with
  | none => (UpdateBidResult.notFound, s)
  | some bid =>
    if bid.freelancerId ≠ callerId then (UpdateBidResult.notOwner, s)
    else if bid.status ≠ BidStatus.pending then (UpdateBidResult.notPending, s)
    else
      let bid' : BidDoc :=
        { bid with message := orKeepStr message bid.message,
                   price := orKeepNum price bid.price }
      (UpdateBidResult.updated bid',
        { s with bids := s.bids.map (fun b => if b.id == bidIdReq then bid' else b) })

/-- Outcome of `deleteBid`. -/
inductive DeleteBidResult
  | notFound
  | notOwner
  | notPending
  | deleted
deriving DecidableEq, Repr

/-- HTTP status `deleteBid` responds with. -/
def DeleteBidResult.statusCode : DeleteBidResult → Nat
  | notFound => 404
  | notOwner => 403
  | notPending => 400
  | deleted => 200

/-- `deleteBid` (`DELETE /api/bids/:bidId`): 404 if missing, 403 if the
caller is not the bid's freelancer, 400 unless pending; then
`bid.deleteOne()`. -/
def deleteBid (s : Store) (callerId bidIdReq : Nat) : DeleteBidResult × Store :=
  match findBid s bidIdReq with
  | none => (DeleteBidResult.notFound, s)
  | some bid =>
    if bid.freelancerId ≠ callerId then (DeleteBidResult.notOwner, s)
    else if bid.status ≠ BidStatus.pending then (DeleteBidResult.notPending, s)
    else
      (DeleteBidResult.deleted,
        { s with bids := s.bids.filter (fun b => b.id != bidIdReq) })

/-- The bid document `createBid` inserts (status defaults to pending per
the Bid schema). -/
def newBid (c n gid : Nat) (msg : String) (price : Nat) : BidDoc :=
  { id := n, gigId := gid, freelancerId := c, message := msg, price := price,
    status := BidStatus.pending }

/-- The gig document after a successful hire. -/
def assignGig (bid : BidDoc) (gig : GigDoc) : GigDoc :=
  { gig with status := GigStatus.assigned, hiredBidId := some bid.id }

/-- The bulk update a successful hire applies to each bid document. -/
def hireBidPatch (bid : BidDoc) (gig : GigDoc) (b : BidDoc) : BidDoc :=
  if b.id == bid.id then { bid with status := BidStatus.hired }
  else if b.gigId == gig.id && decide (b.status = BidStatus.pending) then
    { b with status := BidStatus.rejected }
  else b

/-- Outcome of one hire request as seen at the HTTP boundary: either one
of the controller's own responses, or an unhandled transaction error
(MongoDB transient write conflict) forwarded through `catch` and
`next(error)`.  Modelled from the spec: the error middleware (not under
`src/`) maps unhandled errors to a generic 500 envelope. -/
inductive HireOutcome
  | response (r : HireResult)
  | writeConflictError
deriving DecidableEq, Repr

/-- HTTP status of a hire outcome: the controller's own codes, or the
500 the error middleware answers for the unhandled write conflict. -/
def HireOutcome.statusCode : HireOutcome → Nat
  | response r => r.statusCode
  | writeConflictError => 500

/-- One hire transaction under snapshot isolation: the session reads
from `snap`, the snapshot taken when the transaction started, while
`cur` is the committed store at the time this transaction performs its
writes.  All of the controller's reads and checks run against the
snapshot.  If they pass, `gig.save({session})` hits MongoDB's
write-conflict detection: when another transaction has committed a
write to the same gig document since the snapshot (the gig in `cur`
differs from the snapshot's), the save throws a transient WriteConflict;
the controller's `catch` aborts the transaction (nothing persisted) and
forwards the error to `next(error)` — there is no retry.  With no
conflicting committed write the transaction commits exactly as
`hireBid` (see `hireBidTxn_sequential`). -/
def hireBidTxn (snap cur : Store) (callerId bidIdReq : Nat) : HireOutcome × Store :=
  match findBid snap bidIdReq with
  | none => (HireOutcome.response HireResult.bidNotFound, cur)
  | some bid =>
    match findGig snap bid.gigId with
    | none => (HireOutcome.response HireResult.gigNotFound, cur)
    | some gig =>
      if gig.ownerId ≠ callerId then (HireOutcome.response HireResult.notOwner, cur)
      else if gig.status = GigStatus.assigned then
        (HireOutcome.response HireResult.alreadyAssigned, cur)
      else if findGig cur gig.id ≠ some gig then
        (HireOutcome.writeConflictError, cur)
      else
        let gig' : GigDoc := { gig with status := GigStatus.assigned, hiredBidId := some bid.id }
        let bid' : BidDoc := { bid with status := BidStatus.hired }
        (HireOutcome.response (HireResult.hired bid'),
          { gigs := cur.gigs.map (fun g => if g.id == gig.id then gig' else g),
            bids := cur.bids.map (fun b =>
              if b.id == bid.id then bid'
              else if b.gigId == gig.id && decide (b.status = BidStatus.pending) then
                { b with status := BidStatus.rejected }
              else b) })

/-- The literal reading of the spec's search clause: case-insensitive
substring containment of the raw search term (to be compared with the
code's regex interpretation). -/
def gigMatchesLiteralSpec (search statusQ : Option String) (g : GigDoc) : Bool :=
  statusStr g.status == effectiveStatusFilter statusQ &&
    (match search with
     | none => true
     | some pat =>
       if pat = "" then true
       else containsCI pat g.title || containsCI pat g.description)

/-! ### Concrete documents used by witnesses -/

/-- Witness gig: open, owned by user 100. -/
def wGig : GigDoc :=
  { id := 1, ownerId := 100, title := "Build API", description := "REST work",
    budget := 500, status := GigStatus.«open», hiredBidId := none }

/-- Witness bid by freelancer 200 on `wGig`. -/
def wBidA : BidDoc :=
  { id := 10, gigId := 1, freelancerId := 200, message := "pick me please",
    price := 400, status := BidStatus.pending }

/-- Witness bid by freelancer 201 on `wGig`. -/
def wBidB : BidDoc :=
  { id := 11, gigId := 1, freelancerId := 201, message := "ten characters",
    price := 450, status := BidStatus.pending }

/-- Witness store: one open gig with two pending bids. -/
def wStore : Store := { gigs := [wGig], bids := [wBidA, wBidB] }

/-- `wGig` after bid 10 was hired. -/
def wGigA : GigDoc := { wGig with status := GigStatus.assigned, hiredBidId := some 10 }

/-- `wBidA` after being hired. -/
def wBidAH : BidDoc := { wBidA with status := BidStatus.hired }

/-- `wBidB` after being rejected. -/
def wBidBR : BidDoc := { wBidB with status := BidStatus.rejected }

/-- Witness store after the hire of bid 10. -/
def wStoreA : Store := { gigs := [wGigA], bids := [wBidAH, wBidBR] }

/-! ## Transition system and invariants -/

/-- Is `b` a hired bid referencing gig `gid`? -/
def isHiredOn (gid : Nat) (b : BidDoc) : Bool :=
  b.gigId == gid && decide (b.status = BidStatus.hired)

/-- Number of hired bids referencing gig `gid`. -/
def hiredCount (s : Store) (gid : Nat) : Nat :=
  s.bids.countP (isHiredOn gid)

/-- Spec invariant I1: every gig has at most one hired bid. -/
def I1 (s : Store) : Prop :=
  ∀ g ∈ s.gigs, hiredCount s g.id ≤ 1

/-- Spec invariant I2: a gig is assigned iff exactly one hired bid
references it. -/
def I2 (s : Store) : Prop :=
  ∀ g ∈ s.gigs, (g.status = GigStatus.assigned ↔ hiredCount s g.id = 1)

/-- One mutating request of the system.  Creation steps carry the
store's guarantee that a generated `_id` is fresh. -/
inductive Step : Store → Store → Prop
  | cgig (s : Store) (caller newId : Nat) (t d : String) (bud : Nat)
      (hfresh : ∀ g ∈ s.gigs, g.id ≠ newId) :
      Step s (createGig s caller newId t d bud).2
  | ugig (s : Store) (caller gid : Nat) (t d : Option String) (bud : Option Nat) :
      Step s (updateGig s caller gid t d bud).2
  | dgig (s : Store) (caller gid : Nat) :
      Step s (deleteGig s caller gid).2
  | cbid (s : Store) (caller newId gid : Nat) (msg : String) (price : Nat)
      (hfresh : ∀ b ∈ s.bids, b.id ≠ newId) :
      Step s (createBid s caller newId gid msg price).2
  | ubid (s : Store) (caller bid : Nat) (msg : Option String) (price : Option Nat) :
      Step s (updateBid s caller bid msg price).2
  | dbid (s : Store) (caller bid : Nat) :
      Step s (deleteBid s caller bid).2
  | hire (s : Store) (caller bid : Nat) :
      Step s (hireBid s caller bid).2

/-- States reachable from the empty store by sequences of requests. -/
inductive Reachable : Store → Prop
  | init : Reachable ⟨[], []⟩
  | step {s s' : Store} : Reachable s → Step s s' → Reachable s'

/-- The inductive invariant: document ids are unique (MongoDB `_id`),
every bid references an existing gig, and each gig's status matches its
hired-bid count (open ↔ 0, assigned ↔ 1). -/
structure Inv (s : Store) : Prop where
  gigNodup : (s.gigs.map GigDoc.id).Nodup
  bidNodup : (s.bids.map BidDoc.id).Nodup
  refInt : ∀ b ∈ s.bids, ∃ g ∈ s.gigs, g.id = b.gigId
  counts : ∀ g ∈ s.gigs,
    (g.status = GigStatus.«open» ∧ hiredCount s g.id = 0) ∨
    (g.status = GigStatus.assigned ∧ hiredCount s g.id = 1)

/-! ### Lookup helper lemmas -/

theorem find?_id_of_nodup {α : Type _} (idf : α → Nat) {l : List α} {a : α}
    (hn : (l.map idf).Nodup) (ha : a ∈ l) :
    l.find? (fun x => idf x == idf a) = some a := by
  induction l with
  | nil => cases ha
  | cons x xs ih =>
    simp only [List.map_cons, List.nodup_cons] at hn
    rcases List.mem_cons.mp ha with rfl | hmem
    · simp
    · have hne : idf x ≠ idf a := by
        intro h
        exact hn.1 (h ▸ List.mem_map_of_mem idf hmem)
      rw [List.find?_cons_of_neg _ (by simp [hne])]
      exact ih hn.2 hmem

theorem find?_map_of_id {α : Type _} (idf : α → Nat) (f : α → α)
    (hf : ∀ x, idf (f x) = idf x) (l : List α) (k : Nat) :
    (l.map f).find? (fun x => idf x == k) = (l.find? (fun x => idf x == k)).map f := by
  have hp : (fun x => idf x == k) ∘ f = fun x => idf x == k := by
    funext x
    simp [Function.comp, hf]
  rw [List.find?_map, hp]

theorem findGig_eq_some_self {s : Store} {g : GigDoc}
    (hn : (s.gigs.map GigDoc.id).Nodup) (hg : g ∈ s.gigs) :
    findGig s g.id = some g :=
  find?_id_of_nodup GigDoc.id hn hg

theorem findBid_eq_some_self {s : Store} {b : BidDoc}
    (hn : (s.bids.map BidDoc.id).Nodup) (hb : b ∈ s.bids) :
    findBid s b.id = some b :=
  find?_id_of_nodup BidDoc.id hn hb

theorem mem_of_findGig {s : Store} {i : Nat} {g : GigDoc}
    (h : findGig s i = some g) : g ∈ s.gigs ∧ g.id = i := by
  refine ⟨List.mem_of_find?_eq_some h, ?_⟩
  have := List.find?_some h
  simpa using this

theorem mem_of_findBid {s : Store} {i : Nat} {b : BidDoc}
    (h : findBid s i = some b) : b ∈ s.bids ∧ b.id = i := by
  refine ⟨List.mem_of_find?_eq_some h, ?_⟩
  have := List.find?_some h
  simpa using this

theorem eq_of_mem_of_nodup_id {α : Type _} (idf : α → Nat) {l : List α} {a b : α}
    (hn : (l.map idf).Nodup) (ha : a ∈ l) (hb : b ∈ l) (h : idf a = idf b) :
    a = b := by
  have h1 := find?_id_of_nodup idf hn ha
  have h2 := find?_id_of_nodup idf hn hb
  rw [h] at h1
  rw [h1] at h2
  exact Option.some.inj h2

theorem countP_id_eq_one {α : Type _} (idf : α → Nat) {l : List α} {a : α}
    (hn : (l.map idf).Nodup) (ha : a ∈ l) :
    l.countP (fun x => idf x == idf a) = 1 := by
  induction l with
  | nil => cases ha
  | cons x xs ih =>
    simp only [List.map_cons, List.nodup_cons] at hn
    rcases List.mem_cons.mp ha with rfl | hmem
    · have h0 : xs.countP (fun x => idf x == idf a) = 0 := by
        rw [List.countP_eq_zero]
        intro b hb hbeq
        have hasdf : idf b = idf a := by simpa using hbeq
        exact hn.1 (hasdf ▸ List.mem_map_of_mem idf hb)
      simp [List.countP_cons, h0]
    · have hne : idf x ≠ idf a := fun h => hn.1 (h ▸ List.mem_map_of_mem idf hmem)
      simp [List.countP_cons, hne, ih hn.2 hmem]

theorem nodup_map_append_singleton {α : Type _} (idf : α → Nat) {l : List α} {x : α}
    (hn : (l.map idf).Nodup) (hfresh : ∀ a ∈ l, idf a ≠ idf x) :
    ((l ++ [x]).map idf).Nodup := by
  rw [List.map_append, List.nodup_append]
  refine ⟨hn, by simp, ?_⟩
  intro a ha hx
  simp only [List.map_cons, List.map_nil, List.mem_singleton] at hx
  rcases List.mem_map.mp ha with ⟨y, hy, rfl⟩
  exact hfresh y hy hx

theorem map_id_map_of_preserve {α : Type _} (idf : α → Nat) (f : α → α)
    (hf : ∀ x, idf (f x) = idf x) (l : List α) :
    (l.map f).map idf = l.map idf := by
  rw [List.map_map]
  have hcomp : idf ∘ f = idf := funext hf
  rw [hcomp]

theorem nodup_map_filter {α : Type _} (idf : α → Nat) (p : α → Bool) {l : List α}
    (hn : (l.map idf).Nodup) : ((l.filter p).map idf).Nodup := by
  have hsub : List.Sublist ((l.filter p).map idf) (l.map idf) :=
    List.Sublist.map idf (List.filter_sublist l)
  exact hsub.nodup hn

/-! ### Invariant preservation, operation by operation -/

theorem inv_createGig (s : Store) (c n : Nat) (t d : String) (bud : Nat)
    (hfresh : ∀ g ∈ s.gigs, g.id ≠ n) (hs : Inv s) :
    Inv (createGig s c n t d bud).2 := by
  refine ⟨?_, hs.bidNodup, ?_, ?_⟩
  · exact nodup_map_append_singleton GigDoc.id hs.gigNodup hfresh
  · intro b hb
    rcases hs.refInt b hb with ⟨g, hg, hid⟩
    exact ⟨g, List.mem_append_left _ hg, hid⟩
  · intro g hg
    have hg2 : g ∈ s.gigs ++ [(createGig s c n t d bud).1] := hg
    rcases List.mem_append.mp hg2 with hmem | hmem
    · exact hs.counts g hmem
    · have hgeq : g = (createGig s c n t d bud).1 := List.mem_singleton.mp hmem
      subst hgeq
      left
      refine ⟨rfl, ?_⟩
      show s.bids.countP (isHiredOn n) = 0
      rw [List.countP_eq_zero]
      intro b hb hhit
      rcases hs.refInt b hb with ⟨g0, hg0, hid0⟩
      have hbg : b.gigId = n := by
        simp only [isHiredOn, Bool.and_eq_true, beq_iff_eq, decide_eq_true_eq] at hhit
        exact hhit.1
      exact hfresh g0 hg0 (hid0.trans hbg)

theorem inv_updateGig (s : Store) (c gid : Nat) (t d : Option String)
    (bud : Option Nat) (hs : Inv s) : Inv (updateGig s c gid t d bud).2 := by
  rcases hf : findGig s gid with _ | gig
  · simpa [updateGig, hf] using hs
  · by_cases how : gig.ownerId ≠ c
    · simpa [updateGig, hf, how] using hs
    · by_cases hst : gig.status = GigStatus.assigned
      · simpa [updateGig, hf, how, hst] using hs
      · obtain ⟨hgm, hgid⟩ := mem_of_findGig hf
        set gig' : GigDoc :=
          { gig with title := orKeepStr t gig.title,
                     description := orKeepStr d gig.description,
                     budget := orKeepNum bud gig.budget } with hgig'
        set f : GigDoc → GigDoc := fun g => if g.id == gid then gig' else g with hfdef
        have heq : (updateGig s c gid t d bud).2 = { s with gigs := s.gigs.map f } := by
          simp [updateGig, hf, how, hst, hfdef]
        rw [heq]
        have hidf : ∀ g : GigDoc, (f g).id = g.id := by
          intro g
          by_cases hc : g.id = gid
          · simp [hfdef, hc, hgig', hgid]
          · simp [hfdef, hc]
        refine ⟨?_, hs.bidNodup, ?_, ?_⟩
        · show ((s.gigs.map f).map GigDoc.id).Nodup
          rw [map_id_map_of_preserve GigDoc.id f hidf]
          exact hs.gigNodup
        · intro b hb
          rcases hs.refInt b hb with ⟨g, hg, hid⟩
          exact ⟨f g, List.mem_map_of_mem f hg, (hidf g).trans hid⟩
        · intro g' hg'
          rcases List.mem_map.mp hg' with ⟨g, hg, rfl⟩
          have hcount : hiredCount { s with gigs := s.gigs.map f } (f g).id
              = hiredCount s g.id := by
            show s.bids.countP (isHiredOn (f g).id) = s.bids.countP (isHiredOn g.id)
            rw [hidf g]
          rw [hcount]
          have hstat : (f g).status = g.status := by
            by_cases hc : g.id = gid
            · have hgg : g = gig :=
                eq_of_mem_of_nodup_id GigDoc.id hs.gigNodup hg hgm (hc.trans hgid.symm)
              simp [hfdef, hc, hgig', hgg, hgid]
            · simp [hfdef, hc]
          rw [hstat]
          exact hs.counts g hg

theorem inv_deleteGig (s : Store) (c gid : Nat) (hs : Inv s) :
    Inv (deleteGig s c gid).2 := by
  rcases hf : findGig s gid with _ | gig
  · simpa [deleteGig, hf] using hs
  · by_cases how : gig.ownerId ≠ c
    · simpa [deleteGig, hf, how] using hs
    · obtain ⟨hgm, hgid⟩ := mem_of_findGig hf
      have heq : (deleteGig s c gid).2 =
          { gigs := s.gigs.filter (fun g => g.id != gid),
            bids := s.bids.filter (fun b => b.gigId != gig.id) } := by
        simp [deleteGig, hf, how]
      rw [heq]
      refine ⟨?_, ?_, ?_, ?_⟩
      · exact nodup_map_filter GigDoc.id _ hs.gigNodup
      · exact nodup_map_filter BidDoc.id _ hs.bidNodup
      · intro b hb
        rw [List.mem_filter] at hb
        rcases hs.refInt b hb.1 with ⟨g, hg, hid⟩
        refine ⟨g, ?_, hid⟩
        rw [List.mem_filter]
        refine ⟨hg, ?_⟩
        have hne : b.gigId ≠ gig.id := by simpa using hb.2
        have hne2 : g.id ≠ gid := by
          rw [hid, ← hgid]
          exact hne
        simpa using hne2
      · intro g' hg'
        rw [List.mem_filter] at hg'
        have hne : g'.id ≠ gid := by simpa using hg'.2
        have hcount : hiredCount
            { gigs := s.gigs.filter (fun g => g.id != gid),
              bids := s.bids.filter (fun b => b.gigId != gig.id) } g'.id
            = hiredCount s g'.id := by
          show (s.bids.filter (fun b => b.gigId != gig.id)).countP (isHiredOn g'.id)
              = s.bids.countP (isHiredOn g'.id)
          rw [List.countP_filter]
          apply List.countP_congr
          intro b hb
          constructor
          · intro h
            exact (Bool.and_eq_true _ _ ▸ h).1
          · intro h
            have hbg : b.gigId = g'.id := by
              simp only [isHiredOn, Bool.and_eq_true, beq_iff_eq, decide_eq_true_eq] at h
              exact h.1
            refine Bool.and_eq_true _ _ ▸ ⟨h, ?_⟩
            have : b.gigId ≠ gig.id := by
              rw [hbg]
              intro hcontra
              exact hne (hcontra.trans hgid)
            simpa using this
        rw [hcount]
        exact hs.counts g' hg'.1

theorem inv_createBid (s : Store) (c n gid : Nat) (msg : String) (price : Nat)
    (hfresh : ∀ b ∈ s.bids, b.id ≠ n) (hs : Inv s) :
    Inv (createBid s c n gid msg price).2 := by
  rcases hf : findGig s gid with _ | gig
  · simpa [createBid, hf] using hs
  · by_cases hst : gig.status ≠ GigStatus.«open»
    · simpa [createBid, hf, hst] using hs
    · by_cases how : gig.ownerId = c
      · simpa [createBid, hf, hst, how] using hs
      · rcases hdup : findBidByGigAndFreelancer s gid c with _ | b0
        · obtain ⟨hgm, hgid⟩ := mem_of_findGig hf
          set nb : BidDoc :=
            { id := n, gigId := gid, freelancerId := c,
              message := msg, price := price, status := BidStatus.pending } with hnb
          have heq : (createBid s c n gid msg price).2 =
              { s with bids := s.bids ++ [nb] } := by
            simp [createBid, hf, hst, how, hdup, hnb]
          rw [heq]
          refine ⟨hs.gigNodup, ?_, ?_, ?_⟩
          · exact nodup_map_append_singleton BidDoc.id hs.bidNodup hfresh
          · intro b hb
            rcases List.mem_append.mp hb with hmem | hmem
            · rcases hs.refInt b hmem with ⟨g, hg, hid⟩
              exact ⟨g, hg, hid⟩
            · have hbeq : b = nb := List.mem_singleton.mp hmem
              subst hbeq
              exact ⟨gig, hgm, by simp [hnb, hgid]⟩
          · intro g hg
            have hcount : hiredCount { s with bids := s.bids ++ [nb] } g.id
                = hiredCount s g.id := by
              show (s.bids ++ [nb]).countP (isHiredOn g.id) = s.bids.countP (isHiredOn g.id)
              rw [List.countP_append]
              have : List.countP (isHiredOn g.id) [nb] = 0 := by
                simp [isHiredOn, hnb]
              rw [this, Nat.add_zero]
            rw [hcount]
            exact hs.counts g hg
        · simpa [createBid, hf, hst, how, hdup] using hs

theorem inv_updateBid (s : Store) (c bidId : Nat) (msg : Option String)
    (price : Option Nat) (hs : Inv s) : Inv (updateBid s c bidId msg price).2 := by
  rcases hfb : findBid s bidId with _ | bid
  · simpa [updateBid, hfb] using hs
  · by_cases how : bid.freelancerId ≠ c
    · simpa [updateBid, hfb, how] using hs
    · by_cases hst : bid.status ≠ BidStatus.pending
      · simpa [updateBid, hfb, how, hst] using hs
      · obtain ⟨hbm, hbid⟩ := mem_of_findBid hfb
        set bid' : BidDoc :=
          { bid with message := orKeepStr msg bid.message,
                     price := orKeepNum price bid.price } with hbd
        set f : BidDoc → BidDoc := fun b => if b.id == bidId then bid' else b with hfdef
        have heq : (updateBid s c bidId msg price).2 = { s with bids := s.bids.map f } := by
          simp [updateBid, hfb, how, hst, hfdef]
        rw [heq]
        have hidf : ∀ b : BidDoc, (f b).id = b.id := by
          intro b
          by_cases hc : b.id = bidId
          · simp [hfdef, hc, hbd, hbid]
          · simp [hfdef, hc]
        refine ⟨hs.gigNodup, ?_, ?_, ?_⟩
        · show ((s.bids.map f).map BidDoc.id).Nodup
          rw [map_id_map_of_preserve BidDoc.id f hidf]
          exact hs.bidNodup
        · intro b' hb'
          rcases List.mem_map.mp hb' with ⟨b, hb, rfl⟩
          by_cases hc : b.id = bidId
          · rcases hs.refInt bid hbm with ⟨g, hg, hid⟩
            exact ⟨g, hg, by simp [hfdef, hc, hbd, hid]⟩
          · rcases hs.refInt b hb with ⟨g, hg, hid⟩
            exact ⟨g, hg, by simp [hfdef, hc, hid]⟩
        · intro g hg
          have hcount : hiredCount { s with bids := s.bids.map f } g.id
              = hiredCount s g.id := by
            show (s.bids.map f).countP (isHiredOn g.id) = s.bids.countP (isHiredOn g.id)
            rw [List.countP_map]
            apply List.countP_congr
            intro b hb
            by_cases hc : b.id = bidId
            · have hbb : b = bid :=
                eq_of_mem_of_nodup_id BidDoc.id hs.bidNodup hb hbm (hc.trans hbid.symm)
              subst hbb
              simp [Function.comp, hfdef, hc, hbd, isHiredOn]
            · simp [Function.comp, hfdef, hc]
          rw [hcount]
          exact hs.counts g hg

theorem inv_deleteBid (s : Store) (c bidId : Nat) (hs : Inv s) :
    Inv (deleteBid s c bidId).2 := by
  rcases hfb : findBid s bidId with _ | bid
  · simpa [deleteBid, hfb] using hs
  · by_cases how : bid.freelancerId ≠ c
    · simpa [deleteBid, hfb, how] using hs
    · by_cases hst : bid.status ≠ BidStatus.pending
      · simpa [deleteBid, hfb, how, hst] using hs
      · obtain ⟨hbm, hbid⟩ := mem_of_findBid hfb
        have hpend : bid.status = BidStatus.pending := by
          by_contra hcon
          exact hst hcon
        have heq : (deleteBid s c bidId).2 =
            { s with bids := s.bids.filter (fun b => b.id != bidId) } := by
          simp [deleteBid, hfb, how, hst]
        rw [heq]
        refine ⟨hs.gigNodup, ?_, ?_, ?_⟩
        · exact nodup_map_filter BidDoc.id _ hs.bidNodup
        · intro b hb
          rw [List.mem_filter] at hb
          exact hs.refInt b hb.1
        · intro g hg
          have hcount : hiredCount
              { s with bids := s.bids.filter (fun b => b.id != bidId) } g.id
              = hiredCount s g.id := by
            show (s.bids.filter (fun b => b.id != bidId)).countP (isHiredOn g.id)
                = s.bids.countP (isHiredOn g.id)
            rw [List.countP_filter]
            apply List.countP_congr
            intro b hb
            constructor
            · intro h
              exact (Bool.and_eq_true _ _ ▸ h).1
            · intro h
              refine Bool.and_eq_true _ _ ▸ ⟨h, ?_⟩
              have hne : b.id ≠ bidId := by
                intro hcon
                have hbb : b = bid :=
                  eq_of_mem_of_nodup_id BidDoc.id hs.bidNodup hb hbm (hcon.trans hbid.symm)
                subst hbb
                simp only [isHiredOn, Bool.and_eq_true, beq_iff_eq, decide_eq_true_eq] at h
                rw [hpend] at h
                exact absurd h.2 (by simp)
              simpa using hne
          rw [hcount]
          exact hs.counts g hg

/-! ### Characterization of `hireBid` -/

theorem hireBid_bidNotFound {s : Store} {c bidId : Nat}
    (hb : findBid s bidId = none) :
    hireBid s c bidId = (HireResult.bidNotFound, s) := by
  simp [hireBid, hb]

theorem hireBid_gigNotFound {s : Store} {c bidId : Nat} {bid : BidDoc}
    (hb : findBid s bidId = some bid) (hg : findGig s bid.gigId = none) :
    hireBid s c bidId = (HireResult.gigNotFound, s) := by
  simp [hireBid, hb, hg]

theorem hireBid_notOwner {s : Store} {c bidId : Nat} {bid : BidDoc} {gig : GigDoc}
    (hb : findBid s bidId = some bid) (hg : findGig s bid.gigId = some gig)
    (how : gig.ownerId ≠ c) :
    hireBid s c bidId = (HireResult.notOwner, s) := by
  simp [hireBid, hb, hg, how]

theorem hireBid_conflict {s : Store} {c bidId : Nat} {bid : BidDoc} {gig : GigDoc}
    (hb : findBid s bidId = some bid) (hg : findGig s bid.gigId = some gig)
    (how : gig.ownerId = c) (hst : gig.status = GigStatus.assigned) :
    hireBid s c bidId = (HireResult.alreadyAssigned, s) := by
  simp [hireBid, hb, hg, how, hst]

/-- After a successful hire the target gig has exactly one hired bid. -/
theorem hirePatch_count_one {s : Store} {bid : BidDoc} {gig : GigDoc}
    (hbn : (s.bids.map BidDoc.id).Nodup) (hbm : bid ∈ s.bids)
    (hgid : gig.id = bid.gigId)
    (hzero : s.bids.countP (isHiredOn gig.id) = 0) :
    (s.bids.map (hireBidPatch bid gig)).countP (isHiredOn gig.id) = 1 := by
  rw [List.countP_map]
  have hstep : s.bids.countP (isHiredOn gig.id ∘ hireBidPatch bid gig)
      = s.bids.countP (fun b => b.id == bid.id) := by
    apply List.countP_congr
    intro b hbmem
    by_cases hc : b.id = bid.id
    · simp [Function.comp, hireBidPatch, isHiredOn, hc, ← hgid]
    · have hnothired : ¬ isHiredOn gig.id b = true :=
        List.countP_eq_zero.mp hzero b hbmem
      by_cases hc2 : (b.gigId == gig.id && decide (b.status = BidStatus.pending)) = true
      · simp [Function.comp, hireBidPatch, hc, hc2, isHiredOn]
      · simp only [Function.comp, hireBidPatch]
        rw [if_neg (by simpa using hc), if_neg (by simpa using hc2)]
        constructor
        · intro h
          exact absurd h hnothired
        · intro h
          exact absurd (by simpa using h) hc
  rw [hstep]
  have := countP_id_eq_one BidDoc.id hbn hbm
  simpa using this

/-- A successful hire does not change the hired-bid count of any other
gig. -/
theorem hirePatch_count_other {s : Store} {bid : BidDoc} {gig : GigDoc}
    (hbn : (s.bids.map BidDoc.id).Nodup) (hbm : bid ∈ s.bids)
    (hgid : gig.id = bid.gigId) {gid2 : Nat} (hne2 : gid2 ≠ gig.id) :
    (s.bids.map (hireBidPatch bid gig)).countP (isHiredOn gid2)
      = s.bids.countP (isHiredOn gid2) := by
  rw [List.countP_map]
  apply List.countP_congr
  intro b hbmem
  by_cases hc : b.id = bid.id
  · have hbeq : b = bid := eq_of_mem_of_nodup_id BidDoc.id hbn hbmem hbm hc
    simp [Function.comp, hireBidPatch, isHiredOn, hc, hbeq, ← hgid, Ne.symm hne2]
  · by_cases hc2 : (b.gigId == gig.id && decide (b.status = BidStatus.pending)) = true
    · have hc2' := hc2
      simp only [Bool.and_eq_true, beq_iff_eq, decide_eq_true_eq] at hc2'
      simp [Function.comp, hireBidPatch, hc, hc2'.1, hc2'.2, isHiredOn, Ne.symm hne2]
    · simp [Function.comp, hireBidPatch, hc, hc2]

theorem hireBid_success {s : Store} {c bidId : Nat} {bid : BidDoc} {gig : GigDoc}
    (hb : findBid s bidId = some bid) (hg : findGig s bid.gigId = some gig)
    (how : gig.ownerId = c) (hst : gig.status = GigStatus.«open») :
    hireBid s c bidId =
      (HireResult.hired { bid with status := BidStatus.hired },
       { gigs := s.gigs.map (fun g => if g.id == gig.id then assignGig bid gig else g),
         bids := s.bids.map (hireBidPatch bid gig) }) := by
  have hne : gig.status ≠ GigStatus.assigned := by
    rw [hst]
    intro hcon
    cases hcon
  simp [hireBid, hb, hg, how, hne, assignGig, hireBidPatch]

/-- Invariant preservation by `hireBid`: the hiring transition's heart. -/
theorem inv_hireBid (s : Store) (c bidId : Nat) (hs : Inv s) :
    Inv (hireBid s c bidId).2 := by
  rcases hb : findBid s bidId with _ | bid
  · simpa [hireBid_bidNotFound hb] using hs
  · rcases hg : findGig s bid.gigId with _ | gig
    · simpa [hireBid_gigNotFound hb hg] using hs
    · by_cases how : gig.ownerId ≠ c
      · simpa [hireBid_notOwner hb hg how] using hs
      · push_neg at how
        by_cases hst : gig.status = GigStatus.assigned
        · simpa [hireBid_conflict hb hg how hst] using hs
        · have hopen : gig.status = GigStatus.«open» := by
            cases hsg : gig.status
            · rfl
            · exact absurd hsg hst
          obtain ⟨hbm, hbid⟩ := mem_of_findBid hb
          obtain ⟨hgm, hgid⟩ := mem_of_findGig hg
          have hzero : s.bids.countP (isHiredOn gig.id) = 0 := by
            rcases hs.counts gig hgm with ⟨_, h0⟩ | ⟨ha, _⟩
            · exact h0
            · exact absurd ha hst
          rw [hireBid_success hb hg how hopen]
          show Inv { gigs := s.gigs.map (fun g => if g.id == gig.id then assignGig bid gig else g),
                     bids := s.bids.map (hireBidPatch bid gig) }
          have hidF : ∀ g : GigDoc,
              (if g.id == gig.id then assignGig bid gig else g).id = g.id := by
            intro g
            by_cases hc : g.id = gig.id
            · simp [assignGig, hc]
            · simp [hc]
          have hidf : ∀ b : BidDoc, (hireBidPatch bid gig b).id = b.id := by
            intro b
            by_cases hc : b.id = bid.id
            · simp [hireBidPatch, hc]
            · by_cases hc2 : (b.gigId == gig.id && decide (b.status = BidStatus.pending)) = true
              · simp [hireBidPatch, hc, hc2]
              · simp [hireBidPatch, hc, hc2]
          have hkey : (s.bids.map (hireBidPatch bid gig)).countP (isHiredOn gig.id) = 1 :=
            hirePatch_count_one hs.bidNodup hbm hgid hzero
          have hother : ∀ gid2 : Nat, gid2 ≠ gig.id →
              (s.bids.map (hireBidPatch bid gig)).countP (isHiredOn gid2)
                = s.bids.countP (isHiredOn gid2) := fun gid2 hne2 =>
            hirePatch_count_other hs.bidNodup hbm hgid hne2
          have hrefmap : ∀ k : Nat, (∃ g ∈ s.gigs, g.id = k) →
              ∃ g' ∈ s.gigs.map (fun g => if g.id == gig.id then assignGig bid gig else g),
                g'.id = k := by
            rintro k ⟨g0, hg0, hid0⟩
            refine ⟨_, List.mem_map_of_mem _ hg0, ?_⟩
            rw [hidF g0]
            exact hid0
          have hgidf : ∀ b0 : BidDoc,
              (hireBidPatch bid gig b0).gigId = b0.gigId ∨
              (hireBidPatch bid gig b0).gigId = bid.gigId := by
            intro b0
            by_cases hc : b0.id = bid.id
            · right
              simp [hireBidPatch, hc]
            · left
              by_cases hc2 : (b0.gigId == gig.id && decide (b0.status = BidStatus.pending)) = true
              · simp [hireBidPatch, hc, hc2]
              · simp [hireBidPatch, hc, hc2]
          refine ⟨?_, ?_, ?_, ?_⟩
          · show ((s.gigs.map _).map GigDoc.id).Nodup
            rw [map_id_map_of_preserve GigDoc.id _ hidF]
            exact hs.gigNodup
          · show ((s.bids.map _).map BidDoc.id).Nodup
            rw [map_id_map_of_preserve BidDoc.id _ hidf]
            exact hs.bidNodup
          · intro b' hb'
            rcases List.mem_map.mp hb' with ⟨b0, hbmem, rfl⟩
            rcases hgidf b0 with h | h
            · rcases hs.refInt b0 hbmem with ⟨g0, hg0, hid0⟩
              exact hrefmap _ ⟨g0, hg0, hid0.trans h.symm⟩
            · exact hrefmap _ ⟨gig, hgm, hgid.trans h.symm⟩
          · intro g' hg'
            rcases List.mem_map.mp hg' with ⟨g, hgmem, rfl⟩
            by_cases hcg : g.id = gig.id
            · have hgg : g = gig :=
                eq_of_mem_of_nodup_id GigDoc.id hs.gigNodup hgmem hgm hcg
              subst hgg
              right
              constructor
              · simp [assignGig, hcg]
              · show (s.bids.map (hireBidPatch bid g)).countP
                  (isHiredOn (if g.id == g.id then assignGig bid g else g).id) = 1
                have : (if g.id == g.id then assignGig bid g else g).id = g.id := by
                  simp [assignGig]
                rw [this]
                exact hkey
            · have hfg : (if g.id == gig.id then assignGig bid gig else g) = g := by
                simp [hcg]
              rw [hfg]
              have hcnt : hiredCount
                  { gigs := s.gigs.map (fun g => if g.id == gig.id then assignGig bid gig else g),
                    bids := s.bids.map (hireBidPatch bid gig) } g.id
                  = hiredCount s g.id := hother g.id hcg
              rw [show hiredCount
                  { gigs := s.gigs.map (fun g => if g.id == gig.id then assignGig bid gig else g),
                    bids := s.bids.map (hireBidPatch bid gig) } g.id
                  = (s.bids.map (hireBidPatch bid gig)).countP (isHiredOn g.id) from rfl] at hcnt
              show (g.status = GigStatus.«open» ∧
                  (s.bids.map (hireBidPatch bid gig)).countP (isHiredOn g.id) = 0) ∨
                (g.status = GigStatus.assigned ∧
                  (s.bids.map (hireBidPatch bid gig)).countP (isHiredOn g.id) = 1)
              rw [hcnt]
              exact hs.counts g hgmem

/-- Every request preserves the inductive invariant. -/
theorem inv_step {s s' : Store} (hs : Inv s) (h : Step s s') : Inv s' := by
  cases h with
  | cgig c n t d bud hfresh => exact inv_createGig s c n t d bud hfresh hs
  | ugig c gid t d bud => exact inv_updateGig s c gid t d bud hs
  | dgig c gid => exact inv_deleteGig s c gid hs
  | cbid c n gid msg price hfresh => exact inv_createBid s c n gid msg price hfresh hs
  | ubid c bid msg price => exact inv_updateBid s c bid msg price hs
  | dbid c bid => exact inv_deleteBid s c bid hs
  | hire c bid => exact inv_hireBid s c bid hs

/-- The empty store satisfies the inductive invariant. -/
theorem inv_init : Inv ⟨[], []⟩ := by
  refine ⟨by simp, by simp, ?_, ?_⟩
  · intro b hb
    cases hb
  · intro g hg
    cases hg

/-- Every reachable state satisfies the inductive invariant. -/
theorem reachable_inv {s : Store} (h : Reachable s) : Inv s := by
  induction h with
  | init => exact inv_init
  | step _ hstep ih => exact inv_step ih hstep

/-! ### More `hireBid` post-state lemmas -/

theorem assignGigMap_id (bid : BidDoc) (gig : GigDoc) :
    ∀ g : GigDoc, (if g.id == gig.id then assignGig bid gig else g).id = g.id := by
  intro g
  by_cases hc : g.id = gig.id
  · simp [assignGig, hc]
  · simp [hc]

theorem hireBidPatch_id (bid : BidDoc) (gig : GigDoc) :
    ∀ b : BidDoc, (hireBidPatch bid gig b).id = b.id := by
  intro b
  by_cases hc : b.id = bid.id
  · simp [hireBidPatch, hc]
  · by_cases hc2 : (b.gigId == gig.id && decide (b.status = BidStatus.pending)) = true
    · simp [hireBidPatch, hc, hc2]
    · simp [hireBidPatch, hc, hc2]

/-! ## The claims -/

/-- C1: For every state in which the bid exists, its parent gig exists,
the caller is the gig's owner, and the gig's status is open, `hireBid`
sets the gig's status to assigned and its `hiredBidId` to the bid's id,
sets that bid's status to hired, sets every other pending bid on the
same gig to rejected, modifies no bid of any other gig (and no other
gig), and returns success (200) with the hired bid. -/
theorem C1_hire_success (s : Store) (c bidId : Nat) (bid : BidDoc) (gig : GigDoc)
    (hgn : (s.gigs.map GigDoc.id).Nodup) (hbn : (s.bids.map BidDoc.id).Nodup)
    (hb : findBid s bidId = some bid) (hg : findGig s bid.gigId = some gig)
    (how : gig.ownerId = c) (hst : gig.status = GigStatus.«open») :
    (hireBid s c bidId).1 = HireResult.hired { bid with status := BidStatus.hired } ∧
    (hireBid s c bidId).1.statusCode = 200 ∧
    findGig (hireBid s c bidId).2 gig.id =
      some { gig with status := GigStatus.assigned, hiredBidId := some bid.id } ∧
    findBid (hireBid s c bidId).2 bid.id = some { bid with status := BidStatus.hired } ∧
    (∀ b ∈ s.bids, b.id ≠ bid.id → b.gigId = gig.id → b.status = BidStatus.pending →
      findBid (hireBid s c bidId).2 b.id = some { b with status := BidStatus.rejected }) ∧
    (∀ b ∈ s.bids, b.gigId ≠ gig.id → findBid (hireBid s c bidId).2 b.id = some b) ∧
    (∀ g2 ∈ s.gigs, g2.id ≠ gig.id → findGig (hireBid s c bidId).2 g2.id = some g2) := by
  obtain ⟨hbm, hbid⟩ := mem_of_findBid hb
  obtain ⟨hgm, hgid⟩ := mem_of_findGig hg
  rw [hireBid_success hb hg how hst]
  have hfindg : ∀ k : Nat,
      findGig { gigs := s.gigs.map (fun g => if g.id == gig.id then assignGig bid gig else g),
                bids := s.bids.map (hireBidPatch bid gig) } k
        = (findGig s k).map (fun g => if g.id == gig.id then assignGig bid gig else g) :=
    fun k => find?_map_of_id GigDoc.id _ (assignGigMap_id bid gig) s.gigs k
  have hfindb : ∀ k : Nat,
      findBid { gigs := s.gigs.map (fun g => if g.id == gig.id then assignGig bid gig else g),
                bids := s.bids.map (hireBidPatch bid gig) } k
        = (findBid s k).map (hireBidPatch bid gig) :=
    fun k => find?_map_of_id BidDoc.id _ (hireBidPatch_id bid gig) s.bids k
  refine ⟨rfl, rfl, ?_, ?_, ?_, ?_, ?_⟩
  · rw [hfindg gig.id, findGig_eq_some_self hgn hgm]
    simp [assignGig]
  · rw [hfindb bid.id, findBid_eq_some_self hbn hbm]
    simp [hireBidPatch]
  · intro b hbmem hne hbg hpend
    rw [hfindb b.id, findBid_eq_some_self hbn hbmem]
    simp [hireBidPatch, hne, hbg, hpend]
  · intro b hbmem hbg
    have hne : b.id ≠ bid.id := by
      intro hcon
      have : b = bid := eq_of_mem_of_nodup_id BidDoc.id hbn hbmem hbm hcon
      rw [this] at hbg
      exact hbg hgid.symm
    rw [hfindb b.id, findBid_eq_some_self hbn hbmem]
    simp [hireBidPatch, hne, hbg]
  · intro g2 hg2mem hne
    rw [hfindg g2.id, findGig_eq_some_self hgn hg2mem]
    simp [hne]

/-- C1 witness: on the concrete two-bid store, hiring bid 10 as user 100
returns the hired bid and rejects bid 11. -/
theorem C1_hire_success_witness :
    (hireBid wStore 100 10).1 = HireResult.hired { wBidA with status := BidStatus.hired } ∧
    findBid (hireBid wStore 100 10).2 11 = some { wBidB with status := BidStatus.rejected } := by
  have h := C1_hire_success wStore 100 10 wBidA wGig (by decide) (by decide)
    (by decide) (by decide) (by decide) (by decide)
  refine ⟨h.1, ?_⟩
  have h5 := h.2.2.2.2.1 wBidB (by decide) (by decide) (by decide) (by decide)
  simpa using h5

/-- C3: `hireBid` fails with not-found (404) when the bid is missing,
not-found (404) when the parent gig is missing, forbidden (403) when the
caller is not the gig's owner, and conflict (400) when the gig is
assigned; in every failure case the store is returned unchanged. -/
theorem C3_hire_failures (s : Store) (c bidId : Nat) :
    (findBid s bidId = none →
      hireBid s c bidId = (HireResult.bidNotFound, s) ∧
        HireResult.bidNotFound.statusCode = 404) ∧
    (∀ bid : BidDoc, findBid s bidId = some bid → findGig s bid.gigId = none →
      hireBid s c bidId = (HireResult.gigNotFound, s) ∧
        HireResult.gigNotFound.statusCode = 404) ∧
    (∀ (bid : BidDoc) (gig : GigDoc), findBid s bidId = some bid →
      findGig s bid.gigId = some gig → gig.ownerId ≠ c →
      hireBid s c bidId = (HireResult.notOwner, s) ∧
        HireResult.notOwner.statusCode = 403) ∧
    (∀ (bid : BidDoc) (gig : GigDoc), findBid s bidId = some bid →
      findGig s bid.gigId = some gig → gig.ownerId = c →
      gig.status = GigStatus.assigned →
      hireBid s c bidId = (HireResult.alreadyAssigned, s) ∧
        HireResult.alreadyAssigned.statusCode = 400) :=
  ⟨fun h => ⟨hireBid_bidNotFound h, rfl⟩,
   fun _ hb hg => ⟨hireBid_gigNotFound hb hg, rfl⟩,
   fun _ _ hb hg how => ⟨hireBid_notOwner hb hg how, rfl⟩,
   fun _ _ hb hg how hst => ⟨hireBid_conflict hb hg how hst, rfl⟩⟩

/-- C3 witness: all four failure branches realized on concrete stores,
each leaving the store untouched. -/
theorem C3_hire_failures_witness :
    hireBid ⟨[], []⟩ 1 5 = (HireResult.bidNotFound, (⟨[], []⟩ : Store)) ∧
    hireBid ⟨[], [wBidA]⟩ 1 10 = (HireResult.gigNotFound, (⟨[], [wBidA]⟩ : Store)) ∧
    hireBid wStore 999 10 = (HireResult.notOwner, wStore) ∧
    hireBid wStoreA 100 11 = (HireResult.alreadyAssigned, wStoreA) :=
  ⟨((C3_hire_failures ⟨[], []⟩ 1 5).1 (by decide)).1,
   ((C3_hire_failures ⟨[], [wBidA]⟩ 1 10).2.1 wBidA (by decide) (by decide)).1,
   ((C3_hire_failures wStore 999 10).2.2.1 wBidA wGig (by decide) (by decide)
     (by decide)).1,
   ((C3_hire_failures wStoreA 100 11).2.2.2 wBidBR wGigA (by decide) (by decide)
     (by decide) (by decide)).1⟩

/-- C4: in every reachable state, each gig has at most one hired bid
(I1) and is assigned iff exactly one hired bid references it (I2). -/
theorem C4_invariants (s : Store) (h : Reachable s) : I1 s ∧ I2 s := by
  have hinv := reachable_inv h
  constructor
  · intro g hg
    rcases hinv.counts g hg with ⟨_, h0⟩ | ⟨_, h1⟩
    · show hiredCount s g.id ≤ 1
      omega
    · show hiredCount s g.id ≤ 1
      omega
  · intro g hg
    constructor
    · intro ha
      rcases hinv.counts g hg with ⟨ho, _⟩ | ⟨_, h1⟩
      · rw [ho] at ha
        cases ha
      · exact h1
    · intro h1
      rcases hinv.counts g hg with ⟨_, h0⟩ | ⟨ha, _⟩
      · rw [h0] at h1
        cases h1
      · exact ha

/-- C4 witness: the initial store is reachable and satisfies I1 ∧ I2. -/
theorem C4_invariants_witness : I1 ⟨[], []⟩ ∧ I2 ⟨[], []⟩ :=
  C4_invariants ⟨[], []⟩ Reachable.init

/-! ## Concurrent hires: the snapshot transaction model -/

/-- When its snapshot is current (no overlapping committed write),
`hireBidTxn` behaves exactly as `hireBid`: the overlap model is a
conservative extension of the base embedding. -/
theorem hireBidTxn_sequential (s : Store) (c i : Nat) :
    hireBidTxn s s c i = (HireOutcome.response (hireBid s c i).1, (hireBid s c i).2) := by
  unfold hireBidTxn hireBid
  rcases hb : findBid s i with _ | bid
  · simp [hb]
  · rcases hg : findGig s bid.gigId with _ | gig
    · simp [hb, hg]
    · by_cases how : gig.ownerId ≠ c
      · simp [hb, hg, how]
      · by_cases hst : gig.status = GigStatus.assigned
        · simp [hb, hg, how, hst]
        · have hgid : gig.id = bid.gigId := (mem_of_findGig hg).2
          have hcur : findGig s gig.id = some gig := by
            rw [hgid]
            exact hg
          simp [hb, hg, how, hst, hcur]

/-- C2 (code bug): two hire transactions by the owner overlap on the
open gig 1 of the concrete store — both take their snapshot before
either commits.  The bid-10 transaction commits and succeeds; the
bid-11 transaction passes the `status == "open"` guard on its stale
snapshot, and its `gig.save` then aborts with a transient MongoDB write
conflict which the controller's `catch`/`next(error)` surfaces as a 500
internal error — not the 400 conflict the claim requires of every
loser, because the code implements no retry (and no compare-and-swap).
The aborted transaction persists nothing, the final store keeps exactly
one hired bid, and a loser whose transaction starts only after the
winner's commit does observe `assigned` and get the 400. -/
theorem C2_overlap_write_conflict :
    (hireBidTxn wStore wStore 100 10).1
      = HireOutcome.response (HireResult.hired { wBidA with status := BidStatus.hired }) ∧
    (hireBidTxn wStore (hireBidTxn wStore wStore 100 10).2 100 11).1
      = HireOutcome.writeConflictError ∧
    (hireBidTxn wStore (hireBidTxn wStore wStore 100 10).2 100 11).1.statusCode = 500 ∧
    (hireBidTxn wStore (hireBidTxn wStore wStore 100 10).2 100 11).1.statusCode ≠ 400 ∧
    (hireBidTxn wStore (hireBidTxn wStore wStore 100 10).2 100 11).2
      = (hireBidTxn wStore wStore 100 10).2 ∧
    (hireBidTxn (hireBidTxn wStore wStore 100 10).2 (hireBidTxn wStore wStore 100 10).2
        100 11).1 = HireOutcome.response HireResult.alreadyAssigned ∧
    hiredCount (hireBidTxn wStore (hireBidTxn wStore wStore 100 10).2 100 11).2 1 = 1 := by
  decide

/-- C5 counterexample: the owner of gig 1 bids on their own gig; the
controller's own-gig branch answers 400, not the forbidden 403 the
claim requires. -/
theorem C5_counterexample :
    (createBid wStore 100 7 1 "i will do my own gig" 50).1 = CreateBidResult.ownGig ∧
    (createBid wStore 100 7 1 "i will do my own gig" 50).1.statusCode = 400 ∧
    (createBid wStore 100 7 1 "i will do my own gig" 50).1.statusCode ≠ 403 ∧
    (createBid wStore 100 7 1 "i will do my own gig" 50).2 = wStore := by
  decide

/-- C5 (amended): `createBid` fails with not-found (404) when the gig is
missing, conflict (400) when the gig is not open, a 400 error (not 403:
the controller's "cannot bid on your own gig" branch) when the caller is
the gig's owner, conflict (400) on a duplicate (gigId, freelancerId)
pair; otherwise it inserts a pending bid and returns 201. -/
theorem C5_createBid_errors (s : Store) (c n gid : Nat) (msg : String) (price : Nat) :
    (findGig s gid = none →
      createBid s c n gid msg price = (CreateBidResult.gigNotFound, s) ∧
        (createBid s c n gid msg price).1.statusCode = 404) ∧
    (∀ gig : GigDoc, findGig s gid = some gig → gig.status ≠ GigStatus.«open» →
      createBid s c n gid msg price = (CreateBidResult.gigNotOpen, s) ∧
        (createBid s c n gid msg price).1.statusCode = 400) ∧
    (∀ gig : GigDoc, findGig s gid = some gig → gig.status = GigStatus.«open» →
      gig.ownerId = c →
      createBid s c n gid msg price = (CreateBidResult.ownGig, s) ∧
        (createBid s c n gid msg price).1.statusCode = 400) ∧
    (∀ (gig : GigDoc) (b1 : BidDoc), findGig s gid = some gig →
      gig.status = GigStatus.«open» → gig.ownerId ≠ c →
      findBidByGigAndFreelancer s gid c = some b1 →
      createBid s c n gid msg price = (CreateBidResult.duplicateBid, s) ∧
        (createBid s c n gid msg price).1.statusCode = 400) ∧
    (∀ gig : GigDoc, findGig s gid = some gig → gig.status = GigStatus.«open» →
      gig.ownerId ≠ c → findBidByGigAndFreelancer s gid c = none →
      createBid s c n gid msg price =
        (CreateBidResult.created (newBid c n gid msg price),
         { s with bids := s.bids ++ [newBid c n gid msg price] }) ∧
        (createBid s c n gid msg price).1.statusCode = 201 ∧
        (newBid c n gid msg price).status = BidStatus.pending) := by
  refine ⟨?_, ?_, ?_, ?_, ?_⟩
  · intro hf
    have h : createBid s c n gid msg price = (CreateBidResult.gigNotFound, s) := by
      simp [createBid, hf]
    exact ⟨h, by rw [h]; rfl⟩
  · intro gig hf hst
    have h : createBid s c n gid msg price = (CreateBidResult.gigNotOpen, s) := by
      simp [createBid, hf, hst]
    exact ⟨h, by rw [h]; rfl⟩
  · intro gig hf hst how
    have h : createBid s c n gid msg price = (CreateBidResult.ownGig, s) := by
      simp [createBid, hf, hst, how]
    exact ⟨h, by rw [h]; rfl⟩
  · intro gig b1 hf hst how hdup
    have h : createBid s c n gid msg price = (CreateBidResult.duplicateBid, s) := by
      simp [createBid, hf, hst, how, hdup]
    exact ⟨h, by rw [h]; rfl⟩
  · intro gig hf hst how hdup
    have h : createBid s c n gid msg price =
        (CreateBidResult.created (newBid c n gid msg price),
         { s with bids := s.bids ++ [newBid c n gid msg price] }) := by
      simp [createBid, hf, hst, how, hdup, newBid]
    exact ⟨h, by rw [h]; rfl, rfl⟩

/-- C5 witness: on the concrete store, the owner's bid is refused with
the own-gig 400, and a fresh freelancer's bid is created with 201. -/
theorem C5_createBid_errors_witness :
    createBid wStore 100 7 1 "another bid of mine" 50 = (CreateBidResult.ownGig, wStore) ∧
    (createBid wStore 300 12 1 "a brand new bidder" 99).1.statusCode = 201 :=
  ⟨((C5_createBid_errors wStore 100 7 1 "another bid of mine" 50).2.2.1 wGig
      (by decide) (by decide) (by decide)).1,
   ((C5_createBid_errors wStore 300 12 1 "a brand new bidder" 99).2.2.2.2 wGig
      (by decide) (by decide) (by decide) (by decide)).2.1⟩

/-- C6: updating or deleting a bid whose status is not pending always
fails with conflict (400) for the bid's freelancer, leaving the store
unchanged; for every other caller both operations fail with forbidden
(403), also leaving the store unchanged. -/
theorem C6_terminal_bids (s : Store) (c bidId : Nat) (bid : BidDoc)
    (msg : Option String) (price : Option Nat)
    (hb : findBid s bidId = some bid) :
    (bid.freelancerId = c → bid.status ≠ BidStatus.pending →
      updateBid s c bidId msg price = (UpdateBidResult.notPending, s) ∧
      UpdateBidResult.notPending.statusCode = 400 ∧
      deleteBid s c bidId = (DeleteBidResult.notPending, s) ∧
      DeleteBidResult.notPending.statusCode = 400) ∧
    (bid.freelancerId ≠ c →
      updateBid s c bidId msg price = (UpdateBidResult.notOwner, s) ∧
      UpdateBidResult.notOwner.statusCode = 403 ∧
      deleteBid s c bidId = (DeleteBidResult.notOwner, s) ∧
      DeleteBidResult.notOwner.statusCode = 403) := by
  constructor
  · intro how hst
    refine ⟨?_, rfl, ?_, rfl⟩
    · simp [updateBid, hb, how, hst]
    · simp [deleteBid, hb, how, hst]
  · intro how
    refine ⟨?_, rfl, ?_, rfl⟩
    · simp [updateBid, hb, how]
    · simp [deleteBid, hb, how]

/-- C6 witness: in the post-hire store, the hired bid 10 cannot be
updated or deleted by its freelancer (conflict), nor by anyone else
(forbidden). -/
theorem C6_terminal_bids_witness :
    updateBid wStoreA 200 10 (some "new text here") (some 300)
      = (UpdateBidResult.notPending, wStoreA) ∧
    deleteBid wStoreA 200 10 = (DeleteBidResult.notPending, wStoreA) ∧
    updateBid wStoreA 555 10 none none = (UpdateBidResult.notOwner, wStoreA) ∧
    deleteBid wStoreA 555 10 = (DeleteBidResult.notOwner, wStoreA) := by
  have h1 := (C6_terminal_bids wStoreA 200 10 wBidAH (some "new text here") (some 300)
    (by decide)).1 (by decide) (by decide)
  have h2 := (C6_terminal_bids wStoreA 555 10 wBidAH none none (by decide)).2 (by decide)
  exact ⟨h1.1, h1.2.2.1, h2.1, h2.2.2.1⟩

/-- C8: when the owner deletes a gig, the gig is removed, every bid
referencing it is removed (their count afterwards is zero), and no bid
of any other gig is removed. -/
theorem C8_deleteGig_cascade (s : Store) (c gid : Nat) (gig : GigDoc)
    (hf : findGig s gid = some gig) (how : gig.ownerId = c) :
    (deleteGig s c gid).1 = DeleteGigResult.deleted ∧
    findGig (deleteGig s c gid).2 gid = none ∧
    (deleteGig s c gid).2.bids.countP (fun b => b.gigId == gig.id) = 0 ∧
    (∀ b ∈ s.bids, b.gigId ≠ gig.id → b ∈ (deleteGig s c gid).2.bids) ∧
    (∀ b ∈ (deleteGig s c gid).2.bids, b ∈ s.bids ∧ b.gigId ≠ gig.id) := by
  have heq : deleteGig s c gid = (DeleteGigResult.deleted,
      { gigs := s.gigs.filter (fun g => g.id != gid),
        bids := s.bids.filter (fun b => b.gigId != gig.id) }) := by
    simp [deleteGig, hf, how]
  rw [heq]
  refine ⟨rfl, ?_, ?_, ?_, ?_⟩
  · show (s.gigs.filter _).find? (fun g => g.id == gid) = none
    rw [List.find?_eq_none]
    intro g hgmem
    rw [List.mem_filter] at hgmem
    simpa using hgmem.2
  · rw [List.countP_eq_zero]
    intro b hbmem
    rw [List.mem_filter] at hbmem
    simpa using hbmem.2
  · intro b hbm hne
    rw [List.mem_filter]
    exact ⟨hbm, by simpa using hne⟩
  · intro b hbm
    rw [List.mem_filter] at hbm
    exact ⟨hbm.1, by simpa using hbm.2⟩

/-- C8 witness: deleting gig 1 from the concrete store removes the gig
and both of its bids. -/
theorem C8_deleteGig_cascade_witness :
    (deleteGig wStore 100 1).1 = DeleteGigResult.deleted ∧
    findGig (deleteGig wStore 100 1).2 1 = none ∧
    (deleteGig wStore 100 1).2.bids.countP (fun b => b.gigId == wGig.id) = 0 := by
  have h := C8_deleteGig_cascade wStore 100 1 wGig (by decide) (by decide)
  exact ⟨h.1, h.2.1, h.2.2.1⟩

/-- C7 counterexample: with search term ".", mongo's `$regex` matches
the gig titled "Build API" (a regex dot matches any character) although
"." is not a substring of its title or description; `getGigs` therefore
differs from the literal-substring reading of the claim. -/
theorem C7_counterexample :
    getGigs wStore (some ".") none ≠
      wStore.gigs.filter (gigMatchesLiteralSpec (some ".") none) ∧
    getGigs wStore (some ".") none = [wGig] ∧
    containsCI "." wGig.title = false ∧
    containsCI "." wGig.description = false := by
  decide

/-- `(Char.ofNat m).toNat = m` whenever `m` is a valid scalar value. -/
theorem toNat_ofNat_valid {m : Nat} (h : m.isValidChar) : (Char.ofNat m).toNat = m := by
  simp [Char.ofNat, h, Char.ofNatAux, Char.toNat, UInt32.toNat, BitVec.toNat_ofNatLt]

/-- Lower-casing never produces the metacharacters `.` or `*` from a
character that is not one. -/
theorem toLower_ne_meta {c : Char} (h1 : c ≠ '.') (h2 : c ≠ '*') :
    c.toLower ≠ '.' ∧ c.toLower ≠ '*' := by
  by_cases hc : c.toNat ≥ 65 ∧ c.toNat ≤ 90
  · have hval : (c.toNat + 32).isValidChar := by
      left
      omega
    have hlow : c.toLower = Char.ofNat (c.toNat + 32) := by
      unfold Char.toLower
      simp [hc]
    rw [hlow]
    constructor
    · intro hcon
      have hx := congrArg Char.toNat hcon
      rw [toNat_ofNat_valid hval] at hx
      have h46 : ('.' : Char).toNat = 46 := by decide
      rw [h46] at hx
      omega
    · intro hcon
      have hx := congrArg Char.toNat hcon
      rw [toNat_ofNat_valid hval] at hx
      have h42 : ('*' : Char).toNat = 42 := by decide
      rw [h42] at hx
      omega
  · have hlow : c.toLower = c := by
      unfold Char.toLower
      simp [hc]
    rw [hlow]
    exact ⟨h1, h2⟩

/-- A metacharacter-free search term stays free of the engine's
metacharacters after the case-insensitive lowering. -/
theorem literal_no_dot_star {pat : String} (hlit : isLiteralPattern pat = true) :
    ∀ c ∈ pat.data.map Char.toLower, c ≠ '.' ∧ c ≠ '*' := by
  intro c hc
  rcases List.mem_map.mp hc with ⟨c0, hc0, rfl⟩
  unfold isLiteralPattern at hlit
  rw [List.all_eq_true] at hlit
  have h0 := hlit c0 hc0
  simp only [Bool.not_eq_true'] at h0
  have h1 : c0 ≠ '.' := by
    intro heq
    rw [heq] at h0
    exact absurd h0 (by decide)
  have h2 : c0 ≠ '*' := by
    intro heq
    rw [heq] at h0
    exact absurd h0 (by decide)
  exact toLower_ne_meta h1 h2

/-- On a pattern free of `.` and `*`, the anchored matcher is literal
list-prefix comparison. -/
theorem matchFuel_literal (p : List Char) (hp : ∀ c ∈ p, c ≠ '.' ∧ c ≠ '*') :
    ∀ (fuel : Nat) (s : List Char), p.length ≤ fuel →
      matchFuel fuel p s = startsWithSeg p s := by
  induction p with
  | nil =>
    intro fuel s _
    cases s <;> simp [matchFuel, startsWithSeg]
  | cons c ps ih =>
    intro fuel s hfuel
    obtain ⟨hcdot, -⟩ := hp c (List.mem_cons_self _ _)
    have hps : ∀ x ∈ ps, x ≠ '.' ∧ x ≠ '*' := fun x hx => hp x (List.mem_cons_of_mem _ hx)
    cases fuel with
    | zero => simp at hfuel
    | succ f =>
      have hhead : ¬ ps.head? = some '*' := by
        cases ps with
        | nil => simp
        | cons c2 ps2 =>
          have h2 := (hp c2 (List.mem_cons_of_mem _ (List.mem_cons_self _ _))).2
          simp [h2]
      cases s with
      | nil => simp [matchFuel, hhead, startsWithSeg]
      | cons d ds =>
        have hcd : (c == '.') = false := by
          simp [hcdot]
        have hih := ih hps f ds (by simp at hfuel; omega)
        simp [matchFuel, hhead, startsWithSeg, hcd, hih]

theorem matchHere_literal {p : List Char} (hp : ∀ c ∈ p, c ≠ '.' ∧ c ≠ '*')
    (s : List Char) : matchHere p s = startsWithSeg p s :=
  matchFuel_literal p hp _ s (Nat.le_add_right _ _)

theorem searchFrom_literal {p : List Char} (hp : ∀ c ∈ p, c ≠ '.' ∧ c ≠ '*') :
    ∀ s : List Char, searchFrom p s = containsSeg p s := by
  intro s
  induction s with
  | nil => simp [searchFrom, containsSeg, matchHere_literal hp]
  | cons d ds ihs => simp [searchFrom, containsSeg, matchHere_literal hp, ihs]

/-- For a search term free of regex metacharacters, the `$regex` query
is exactly case-insensitive substring containment — on this domain the
embedded matcher coincides with full PCRE, since such a term denotes the
regex matching its literal self. -/
theorem regexMatchCI_literal {pat : String} (hlit : isLiteralPattern pat = true)
    (s : String) : regexMatchCI pat s = containsCI pat s := by
  unfold regexMatchCI containsCI
  exact searchFrom_literal (literal_no_dot_star hlit) _

/-- C7 (amended): for every search term free of regex metacharacters,
`getGigs` returns exactly the gigs whose title or description
case-insensitively contains the term as a substring (vacuously all gigs
for the empty, falsy term) and whose status equals the requested filter,
defaulting to "open" when no status is given; a term containing
metacharacters is instead interpreted by MongoDB as a regular
expression, where the substring reading fails (counterexample "."). -/
theorem C7_getGigs_literal (s : Store) (statusQ : Option String) (pat : String)
    (g : GigDoc) (hlit : isLiteralPattern pat = true) :
    (g ∈ getGigs s none statusQ ↔
      g ∈ s.gigs ∧ statusStr g.status = effectiveStatusFilter statusQ) ∧
    (g ∈ getGigs s (some pat) statusQ ↔
      g ∈ s.gigs ∧ statusStr g.status = effectiveStatusFilter statusQ ∧
        (pat = "" ∨ containsCI pat g.title = true ∨ containsCI pat g.description = true)) := by
  constructor
  · simp [getGigs, List.mem_filter, gigMatchesQuery]
  · by_cases hpat : pat = ""
    · subst hpat
      simp [getGigs, List.mem_filter, gigMatchesQuery]
    · simp [getGigs, List.mem_filter, gigMatchesQuery, hpat,
        regexMatchCI_literal hlit]

/-- C7 witness: the metacharacter-free search "rest" returns the open
gig whose description contains "REST", case-insensitively. -/
theorem C7_getGigs_literal_witness :
    isLiteralPattern "rest" = true ∧ wGig ∈ getGigs wStore (some "rest") none := by
  refine ⟨by decide, ?_⟩
  rw [(C7_getGigs_literal wStore none "rest" wGig (by decide)).2]
  exact ⟨by decide, by decide, Or.inr (Or.inr (by decide))⟩

/-- C9: for an owner's update of an open gig and a freelancer's update
of a pending own bid, each field supplied falsy (omitted, empty string,
or zero) leaves the stored field unchanged while the request still
succeeds (200); fields supplied truthy overwrite the stored value. -/
theorem C9_falsy_updates (s : Store) (cg cb gid bidId : Nat) (gig : GigDoc)
    (bid : BidDoc) (t d : Option String) (bud : Option Nat) (msg : Option String)
    (price : Option Nat)
    (hfg : findGig s gid = some gig) (howg : gig.ownerId = cg)
    (hstg : gig.status = GigStatus.«open»)
    (hfb : findBid s bidId = some bid) (howb : bid.freelancerId = cb)
    (hstb : bid.status = BidStatus.pending) :
    ((updateGig s cg gid t d bud).1.statusCode = 200 ∧
      ∃ g' : GigDoc, findGig (updateGig s cg gid t d bud).2 gid = some g' ∧
        ((t = none ∨ t = some "") → g'.title = gig.title) ∧
        (∀ v, t = some v → v ≠ "" → g'.title = v) ∧
        ((d = none ∨ d = some "") → g'.description = gig.description) ∧
        (∀ v, d = some v → v ≠ "" → g'.description = v) ∧
        ((bud = none ∨ bud = some 0) → g'.budget = gig.budget) ∧
        (∀ v, bud = some v → v ≠ 0 → g'.budget = v)) ∧
    ((updateBid s cb bidId msg price).1.statusCode = 200 ∧
      ∃ b' : BidDoc, findBid (updateBid s cb bidId msg price).2 bidId = some b' ∧
        ((msg = none ∨ msg = some "") → b'.message = bid.message) ∧
        (∀ v, msg = some v → v ≠ "" → b'.message = v) ∧
        ((price = none ∨ price = some 0) → b'.price = bid.price) ∧
        (∀ v, price = some v → v ≠ 0 → b'.price = v)) := by
  obtain ⟨hgm, hgid⟩ := mem_of_findGig hfg
  obtain ⟨hbm, hbid⟩ := mem_of_findBid hfb
  have hstg' : gig.status ≠ GigStatus.assigned := by
    rw [hstg]
    intro hcon
    cases hcon
  constructor
  · set gig' : GigDoc :=
      { gig with title := orKeepStr t gig.title,
                 description := orKeepStr d gig.description,
                 budget := orKeepNum bud gig.budget } with hg'
    have hequ : updateGig s cg gid t d bud =
        (UpdateGigResult.updated gig',
         { s with gigs := s.gigs.map (fun g => if g.id == gid then gig' else g) }) := by
      simp [updateGig, hfg, howg, hstg', hg']
    rw [hequ]
    refine ⟨rfl, gig', ?_, ?_, ?_, ?_, ?_, ?_, ?_⟩
    · show (s.gigs.map _).find? (fun g => g.id == gid) = some gig'
      have hpres : ∀ g : GigDoc,
          ((fun g => if g.id == gid then gig' else g) g).id = g.id := by
        intro g
        by_cases hc : g.id = gid
        · simp [hc, hg', hgid]
        · simp [hc]
      rw [find?_map_of_id GigDoc.id _ hpres s.gigs gid]
      rw [show s.gigs.find? (fun g => g.id == gid) = some gig from hfg]
      simp [hgid]
    · rintro (rfl | rfl) <;> simp [hg', orKeepStr]
    · rintro v rfl hv
      simp [hg', orKeepStr, hv]
    · rintro (rfl | rfl) <;> simp [hg', orKeepStr]
    · rintro v rfl hv
      simp [hg', orKeepStr, hv]
    · rintro (rfl | rfl) <;> simp [hg', orKeepNum]
    · rintro v rfl hv
      simp [hg', orKeepNum, hv]
  · set bid' : BidDoc :=
      { bid with message := orKeepStr msg bid.message,
                 price := orKeepNum price bid.price } with hbd
    have hequ : updateBid s cb bidId msg price =
        (UpdateBidResult.updated bid',
         { s with bids := s.bids.map (fun b => if b.id == bidId then bid' else b) }) := by
      simp [updateBid, hfb, howb, hstb, hbd]
    rw [hequ]
    refine ⟨rfl, bid', ?_, ?_, ?_, ?_, ?_⟩
    · show (s.bids.map _).find? (fun b => b.id == bidId) = some bid'
      have hpres : ∀ b : BidDoc,
          ((fun b => if b.id == bidId then bid' else b) b).id = b.id := by
        intro b
        by_cases hc : b.id = bidId
        · simp [hc, hbd, hbid]
        · simp [hc]
      rw [find?_map_of_id BidDoc.id _ hpres s.bids bidId]
      rw [show s.bids.find? (fun b => b.id == bidId) = some bid from hfb]
      simp [hbid]
    · rintro (rfl | rfl) <;> simp [hbd, orKeepStr]
    · rintro v rfl hv
      simp [hbd, orKeepStr, hv]
    · rintro (rfl | rfl) <;> simp [hbd, orKeepNum]
    · rintro v rfl hv
      simp [hbd, orKeepNum, hv]

/-- C9 witness: updating gig 1 with an empty title and budget 0 keeps
title and budget; updating bid 10 with no message and price 0 keeps
both — and both requests answer 200. -/
theorem C9_falsy_updates_witness :
    (updateGig wStore 100 1 (some "") none (some 0)).1.statusCode = 200 ∧
    (∃ g' : GigDoc, findGig (updateGig wStore 100 1 (some "") none (some 0)).2 1 = some g' ∧
      g'.title = wGig.title ∧ g'.budget = wGig.budget) ∧
    (updateBid wStore 200 10 none (some 0)).1.statusCode = 200 ∧
    (∃ b' : BidDoc, findBid (updateBid wStore 200 10 none (some 0)).2 10 = some b' ∧
      b'.message = wBidA.message ∧ b'.price = wBidA.price) := by
  have h := C9_falsy_updates wStore 100 200 1 10 wGig wBidA (some "") none (some 0)
    none (some 0) (by decide) (by decide) (by decide) (by decide) (by decide)
    (by decide)
  obtain ⟨g', hfind, ht, _, _, _, hb, _⟩ := h.1.2
  obtain ⟨b', hfindb, hm, _, hp, _⟩ := h.2.2
  exact ⟨h.1.1, ⟨g', hfind, ht (Or.inr rfl), hb (Or.inr rfl)⟩,
    h.2.1, ⟨b', hfindb, hm (Or.inl rfl), hp (Or.inr rfl)⟩⟩

/-- C10: for bid update, bid delete and hire, the checks run in the
order existence, ownership, state: an existing bid whose caller is not
the required owner always yields forbidden regardless of any status, and
a conflict result is only ever produced for the rightful owner. -/
theorem C10_check_order (s : Store) (c bidId : Nat) (msg : Option String)
    (price : Option Nat) :
    (∀ bid : BidDoc, findBid s bidId = some bid → bid.freelancerId ≠ c →
      (updateBid s c bidId msg price).1 = UpdateBidResult.notOwner ∧
      (deleteBid s c bidId).1 = DeleteBidResult.notOwner) ∧
    (∀ (bid : BidDoc) (gig : GigDoc), findBid s bidId = some bid →
      findGig s bid.gigId = some gig → gig.ownerId ≠ c →
      (hireBid s c bidId).1 = HireResult.notOwner) ∧
    ((updateBid s c bidId msg price).1 = UpdateBidResult.notPending →
      ∃ bid : BidDoc, findBid s bidId = some bid ∧ bid.freelancerId = c) ∧
    ((deleteBid s c bidId).1 = DeleteBidResult.notPending →
      ∃ bid : BidDoc, findBid s bidId = some bid ∧ bid.freelancerId = c) ∧
    ((hireBid s c bidId).1 = HireResult.alreadyAssigned →
      ∃ (bid : BidDoc) (gig : GigDoc), findBid s bidId = some bid ∧
        findGig s bid.gigId = some gig ∧ gig.ownerId = c) := by
  refine ⟨?_, ?_, ?_, ?_, ?_⟩
  · intro bid hb how
    constructor
    · simp [updateBid, hb, how]
    · simp [deleteBid, hb, how]
  · intro bid gig hb hg how
    simp [hireBid, hb, hg, how]
  · intro h
    rcases hb : findBid s bidId with _ | bid
    · simp [updateBid, hb] at h
    · by_cases how : bid.freelancerId ≠ c
      · simp [updateBid, hb, how] at h
      · push_neg at how
        exact ⟨bid, rfl, how⟩
  · intro h
    rcases hb : findBid s bidId with _ | bid
    · simp [deleteBid, hb] at h
    · by_cases how : bid.freelancerId ≠ c
      · simp [deleteBid, hb, how] at h
      · push_neg at how
        exact ⟨bid, rfl, how⟩
  · intro h
    rcases hb : findBid s bidId with _ | bid
    · simp [hireBid, hb] at h
    · rcases hg : findGig s bid.gigId with _ | gig
      · simp [hireBid, hb, hg] at h
      · by_cases how : gig.ownerId ≠ c
        · simp [hireBid, hb, hg, how] at h
        · push_neg at how
          exact ⟨bid, gig, rfl, hg, how⟩

/-- C10 witness: a stranger gets forbidden on the hired bid of the
post-hire store regardless of its terminal status, and the conflicts
realized there identify the rightful owners. -/
theorem C10_check_order_witness :
    (updateBid wStoreA 555 10 none none).1 = UpdateBidResult.notOwner ∧
    (deleteBid wStoreA 555 10).1 = DeleteBidResult.notOwner ∧
    (hireBid wStoreA 555 10).1 = HireResult.notOwner ∧
    (∃ bid : BidDoc, findBid wStoreA 10 = some bid ∧ bid.freelancerId = 200) ∧
    (∃ (bid : BidDoc) (gig : GigDoc), findBid wStoreA 11 = some bid ∧
      findGig wStoreA bid.gigId = some gig ∧ gig.ownerId = 100) := by
  have h1 := (C10_check_order wStoreA 555 10 none none).1 wBidAH (by decide) (by decide)
  have h2 := (C10_check_order wStoreA 555 10 none none).2.1 wBidAH wGigA (by decide)
    (by decide) (by decide)
  have h3 := (C10_check_order wStoreA 200 10 none none).2.2.1 (by decide)
  have h4 := (C10_check_order wStoreA 100 11 none none).2.2.2.2 (by decide)
  exact ⟨h1.1, h1.2, h2, h3, h4⟩

end GigFlow
